import Mathlib

/-!
Verification of the connection-and-framing subsystem of the MAKCM serial
handler (`temp/modules/serial_handler.py`): the UART frame parser, the
receive-buffer handler, the command encoder, baud-rate command validation,
the device-discovery scan, and the connect retry loop.

Bytes are modelled as natural numbers (intended < 256); byte strings as
`List Nat`.  Python `bytes.find(sub, start)` is modelled by `findFrom`
returning `Option Nat`; `str.decode('utf-8', errors=...)` by
`utf8DecodeWith`, which follows CPython's UTF-8 decoder (maximal invalid
subparts are passed to the error handler: `[]` for `ignore`, `[0xFFFD]`
for `replace`).
-/

namespace MAKCM

abbrev Byte := Nat

/-- The 3-byte text-frame header `b"km."`. -/
def kmHeader : List Byte := [0x6B, 0x6D, 0x2E]

/-- The 2-byte binary-frame header `0xDE 0xAD`. -/
def deadHeader : List Byte := [0xDE, 0xAD]

/-- Carriage return, the text-frame terminator. -/
def CRbyte : Byte := 0x0D

/-- Index of the first occurrence of `sub` in `l` (Python `bytes.find` with
start 0), as an `Option`. -/
def findSeq (sub : List Byte) : List Byte → Option Nat
  | [] => if sub = [] then some 0 else none
  | a :: rest =>
    if (a :: rest).take sub.length = sub then some 0
    else (findSeq sub rest).map (· + 1)

/-- Python `data.find(sub, start)`: first occurrence of `sub` in `data` at
index `≥ start`, as an `Option`. -/
def findFrom (data sub : List Byte) (start : Nat) : Option Nat :=
  (findSeq sub (data.drop start)).map (· + start)

/-- Is `b` a UTF-8 continuation byte (`0x80..0xBF`)? -/
def isCont (b : Byte) : Bool := 0x80 ≤ b && b ≤ 0xBF

/-- UTF-8 decoding of a byte list to a code-point list, following CPython's
decoder: well-formed sequences (no overlongs, no surrogates, max U+10FFFF)
decode to their code point; each maximal invalid subpart contributes
`onErr` (`[]` models `errors='ignore'`, `[0xFFFD]` models
`errors='replace'`). -/
def utf8DecodeAux (onErr : List Nat) : Nat → List Byte → List Nat
  | _, [] => []
  | 0, _ :: _ => []
  | fuel + 1, b :: rest =>
    if b < 0x80 then b :: utf8DecodeAux onErr fuel rest
    else if 0xC2 ≤ b && b ≤ 0xDF then
      match rest with
      | [] => onErr
      | b1 :: rest1 =>
        if isCont b1 then
          ((b - 0xC0) * 0x40 + (b1 - 0x80)) :: utf8DecodeAux onErr fuel rest1
        else onErr ++ utf8DecodeAux onErr fuel (b1 :: rest1)
    else if 0xE0 ≤ b && b ≤ 0xEF then
      match rest with
      | [] => onErr
      | b1 :: rest1 =>
        if (if b = 0xE0 then decide (0xA0 ≤ b1) && decide (b1 ≤ 0xBF)
            else if b = 0xED then decide (0x80 ≤ b1) && decide (b1 ≤ 0x9F)
            else isCont b1) then
          match rest1 with
          | [] => onErr
          | b2 :: rest2 =>
            if isCont b2 then
              ((b - 0xE0) * 0x1000 + (b1 - 0x80) * 0x40 + (b2 - 0x80)) ::
                utf8DecodeAux onErr fuel rest2
            else onErr ++ utf8DecodeAux onErr fuel (b2 :: rest2)
        else onErr ++ utf8DecodeAux onErr fuel (b1 :: rest1)
    else if 0xF0 ≤ b && b ≤ 0xF4 then
      match rest with
      | [] => onErr
      | b1 :: rest1 =>
        if (if b = 0xF0 then decide (0x90 ≤ b1) && decide (b1 ≤ 0xBF)
            else if b = 0xF4 then decide (0x80 ≤ b1) && decide (b1 ≤ 0x8F)
            else isCont b1) then
          match rest1 with
          | [] => onErr
          | b2 :: rest2 =>
            if isCont b2 then
              match rest2 with
              | [] => onErr
              | b3 :: rest3 =>
                if isCont b3 then
                  ((b - 0xF0) * 0x40000 + (b1 - 0x80) * 0x1000 +
                    (b2 - 0x80) * 0x40 + (b3 - 0x80)) ::
                    utf8DecodeAux onErr fuel rest3
                else onErr ++ utf8DecodeAux onErr fuel (b3 :: rest3)
            else onErr ++ utf8DecodeAux onErr fuel (b2 :: rest2)
        else onErr ++ utf8DecodeAux onErr fuel (b1 :: rest1)
    else onErr ++ utf8DecodeAux onErr fuel rest

/-- UTF-8 decoding driven by fuel `l.length`: each step consumes at least
one byte, so the fuel never runs out. -/
def utf8DecodeWith (onErr : List Nat) (l : List Byte) : List Nat :=
  utf8DecodeAux onErr l.length l

/-- `frame.decode('utf-8', errors='ignore')`, as used by the parser. -/
def utf8DecodeIgnore : List Byte → List Nat := utf8DecodeWith []

/-- Modelled from the spec: the spec says binary payloads are decoded "as
UTF-8 (invalid sequences replaced, never fatal)", i.e. Python
`errors='replace'`, emitting U+FFFD per maximal invalid subpart.  Kept
separate from the source's `errors='ignore'` decode for comparison. -/
def specUtf8DecodeReplace : List Byte → List Nat := utf8DecodeWith [0xFFFD]

/-- A frame emitted (printed to the log sink) by `parse_uart_frames`:
either a `km.`-to-CR text frame or a `0xDE 0xAD` length-prefixed binary
frame, carrying the decoded code points. -/
inductive Frame where
  | text (s : List Nat) : Frame
  | binary (s : List Nat) : Frame
deriving DecidableEq, Repr

/-- One-step outcome of the `parse_uart_frames` loop body at scan index
`i`. -/
inductive StepRes where
  | exit : StepRes
  | emit (fr : Frame) (next : Nat) : StepRes
  | skip (next : Nat) : StepRes
deriving DecidableEq, Repr

/-- The next potential header strictly after index `i`: the nearest of
`data.find(b"km.", i+1)` and `data.find(0xDE 0xAD, i+1)`
(lines 205-219 of `serial_handler.py`). -/
def nextHeader (data : List Byte) (i : Nat) : Option Nat :=
  match findFrom data kmHeader (i + 1), findFrom data deadHeader (i + 1) with
  | none, none => none
  | none, some k => some k
  | some j, none => some j
  | some j, some k => some (min j k)

/-- The body of the `parse_uart_frames` while-loop at scan index `i`
(lines 175-219 of `serial_handler.py`): `exit` for loop exit or any
`break`, `emit` for a completed frame (printed, index advanced), `skip`
for the jump to the next potential header. -/
def parseStep (data : List Byte) (i : Nat) : StepRes :=
  if i < data.length then
    if (data.drop i).take 3 = kmHeader then
      match findFrom data [CRbyte] i with
      | some e =>
        StepRes.emit (Frame.text (utf8DecodeIgnore ((data.drop i).take (e + 1 - i)))) (e + 1)
      | none => StepRes.exit
    else if (data.drop i).take 2 = deadHeader then
      if i + 4 ≤ data.length then
        if i + 4 + (data.getD (i + 2) 0 + 0x100 * data.getD (i + 3) 0) ≤ data.length then
          StepRes.emit
            (Frame.binary (utf8DecodeIgnore
              ((data.drop (i + 4)).take (data.getD (i + 2) 0 + 0x100 * data.getD (i + 3) 0))))
            (i + 4 + (data.getD (i + 2) 0 + 0x100 * data.getD (i + 3) 0))
        else StepRes.exit
      else StepRes.exit
    else
      match nextHeader data i with
      | some j => StepRes.skip j
      | none => StepRes.exit
  else StepRes.exit

/-- The `parse_uart_frames` loop, driven by fuel: returns the ordered list
of emitted frames and the final scan index, or `none` on fuel
exhaustion. -/
def parseAux (data : List Byte) (fuel i : Nat) : Option (List Frame × Nat) :=
  match fuel with
  | 0 => none
  | fuel + 1 =>
    match parseStep data i with
    | StepRes.exit => some ([], i)
    | StepRes.emit fr next =>
      match parseAux data fuel next with
      | some (fs, fin) => some (fr :: fs, fin)
      | none => none
    | StepRes.skip next => parseAux data fuel next

/-- `parse_uart_frames` run from index `i` with sufficient fuel. -/
def parseFrom (data : List Byte) (i : Nat) : List Frame × Nat :=
  (parseAux data (data.length + 1) i).getD ([], i)

/-- `parse_uart_frames(data)`: the emitted frames (in print order) and the
final scan index. -/
def parse_uart_frames (data : List Byte) : List Frame × Nat :=
  parseFrom data 0

/-- The receive-buffer state of a `SerialHandler` (field `self.buffer`). -/
structure RxState where
  buffer : List Byte
deriving DecidableEq, Repr

/-- `handle_incoming_data(data)` (lines 221-236): extend the buffer with
`data`, parse it (emitting frames), then reset `self.buffer` to an empty
`bytearray` in the `finally` block. -/
def handle_incoming_data (st : RxState) (data : List Byte) : List Frame × RxState :=
  ((parse_uart_frames (st.buffer ++ data)).1, ⟨[]⟩)

/-- Feed a sequence of chunks through `handle_incoming_data`, collecting
all emitted frames in order. -/
def feed_chunks (st : RxState) : List (List Byte) → List Frame × RxState
  | [] => ([], st)
  | c :: cs =>
    let r1 := handle_incoming_data st c
    let r2 := feed_chunks r1.2 cs
    (r1.1 ++ r2.1, r2.2)

/-! ### Properties of `findSeq` / `findFrom` -/

lemma findSeq_occ {sub l : List Byte} {n : Nat} (h : findSeq sub l = some n) :
    (l.drop n).take sub.length = sub := by
  induction l generalizing n with
  | nil =>
    unfold findSeq at h
    by_cases hs : sub = []
    · simp [hs] at h ⊢
    · simp [hs] at h
  | cons a rest ih =>
    unfold findSeq at h
    by_cases hp : (a :: rest).take sub.length = sub
    · rw [if_pos hp] at h
      cases h
      simpa using hp
    · rw [if_neg hp] at h
      rcases Option.map_eq_some'.mp h with ⟨m, hm, rfl⟩
      rw [List.drop_succ_cons]
      exact ih hm

lemma findSeq_bound {sub l : List Byte} {n : Nat} (hsub : sub ≠ [])
    (h : findSeq sub l = some n) :
    n + sub.length ≤ l.length := by
  have hocc := findSeq_occ h
  have hlen := congrArg List.length hocc
  rw [List.length_take, List.length_drop] at hlen
  have h2 : sub.length ⊓ (l.length - n) ≤ l.length - n := Nat.min_le_right _ _
  rw [hlen] at h2
  have h1 : 0 < sub.length := List.length_pos.mpr hsub
  omega

lemma findSeq_min {sub l : List Byte} {n : Nat} (h : findSeq sub l = some n) :
    ∀ m, m < n → (l.drop m).take sub.length ≠ sub := by
  induction l generalizing n with
  | nil =>
    unfold findSeq at h
    by_cases hs : sub = []
    · simp [hs] at h
      intro m hm
      omega
    · simp [hs] at h
  | cons a rest ih =>
    unfold findSeq at h
    by_cases hp : (a :: rest).take sub.length = sub
    · rw [if_pos hp] at h
      cases h
      omega
    · rw [if_neg hp] at h
      rcases Option.map_eq_some'.mp h with ⟨m0, hm0, rfl⟩
      intro m hm
      cases m with
      | zero => simpa using hp
      | succ m1 =>
        rw [List.drop_succ_cons]
        exact ih hm0 m1 (by omega)

lemma findSeq_none {sub l : List Byte} (h : findSeq sub l = none) :
    ∀ m, (l.drop m).take sub.length ≠ sub := by
  induction l with
  | nil =>
    unfold findSeq at h
    by_cases hs : sub = []
    · simp [hs] at h
    · intro m
      simp only [List.drop_nil, List.take_nil]
      intro hc
      exact hs hc.symm
  | cons a rest ih =>
    unfold findSeq at h
    by_cases hp : (a :: rest).take sub.length = sub
    · rw [if_pos hp] at h
      cases h
    · rw [if_neg hp] at h
      intro m
      cases m with
      | zero => simpa using hp
      | succ m1 =>
        rw [List.drop_succ_cons]
        exact ih (by simpa using h) m1

lemma findFrom_some {data sub : List Byte} {start j : Nat}
    (h : findFrom data sub start = some j) :
    start ≤ j ∧ (data.drop j).take sub.length = sub := by
  unfold findFrom at h
  rcases Option.map_eq_some'.mp h with ⟨m, hm, rfl⟩
  have hocc := findSeq_occ hm
  rw [List.drop_drop] at hocc
  constructor
  · omega
  · rw [Nat.add_comm m start]
    exact hocc

lemma findFrom_bound {data sub : List Byte} {start j : Nat} (hsub : sub ≠ [])
    (h : findFrom data sub start = some j) :
    j + sub.length ≤ data.length := by
  unfold findFrom at h
  rcases Option.map_eq_some'.mp h with ⟨m, hm, rfl⟩
  have hb := findSeq_bound hsub hm
  have h1 : 0 < sub.length := List.length_pos.mpr hsub
  rw [List.length_drop] at hb
  omega

lemma findFrom_min {data sub : List Byte} {start j : Nat}
    (h : findFrom data sub start = some j) :
    ∀ m, start ≤ m → m < j → (data.drop m).take sub.length ≠ sub := by
  unfold findFrom at h
  rcases Option.map_eq_some'.mp h with ⟨m0, hm0, rfl⟩
  intro m hsm hmj
  have := findSeq_min hm0 (m - start) (by omega)
  rw [List.drop_drop] at this
  have harith : start + (m - start) = m := by omega
  rw [harith] at this
  exact this

lemma findFrom_none {data sub : List Byte} {start : Nat}
    (h : findFrom data sub start = none) :
    ∀ m, start ≤ m → (data.drop m).take sub.length ≠ sub := by
  unfold findFrom at h
  intro m hsm
  have hnone : findSeq sub (data.drop start) = none := by
    cases hx : findSeq sub (data.drop start) with
    | none => rfl
    | some v => rw [hx] at h; simp at h
  have := findSeq_none hnone (m - start)
  rw [List.drop_drop] at this
  have harith : start + (m - start) = m := by omega
  rw [harith] at this
  exact this

/-! ### Properties of `nextHeader` and `parseStep` -/

/-- Some frame header (`"km."` or `0xDE 0xAD`) starts at index `j`. -/
def headerAt (data : List Byte) (j : Nat) : Prop :=
  (data.drop j).take 3 = kmHeader ∨ (data.drop j).take 2 = deadHeader

instance (data : List Byte) (j : Nat) : Decidable (headerAt data j) := by
  unfold headerAt
  exact inferInstance

lemma kmHeader_length : kmHeader.length = 3 := rfl

lemma deadHeader_length : deadHeader.length = 2 := rfl

lemma nextHeader_some {data : List Byte} {i j : Nat} (h : nextHeader data i = some j) :
    i + 1 ≤ j ∧ headerAt data j ∧ j + 2 ≤ data.length := by
  unfold nextHeader at h
  cases hkm : findFrom data kmHeader (i + 1) with
  | none =>
    cases hdead : findFrom data deadHeader (i + 1) with
    | none => rw [hkm, hdead] at h; cases h
    | some k =>
      rw [hkm, hdead] at h
      cases h
      have h1 := findFrom_some hdead
      have h2 := findFrom_bound (by decide) hdead
      rw [deadHeader_length] at h1 h2
      exact ⟨h1.1, Or.inr h1.2, h2⟩
  | some j0 =>
    cases hdead : findFrom data deadHeader (i + 1) with
    | none =>
      rw [hkm, hdead] at h
      cases h
      have h1 := findFrom_some hkm
      have h2 := findFrom_bound (by decide) hkm
      rw [kmHeader_length] at h1 h2
      exact ⟨h1.1, Or.inl h1.2, by omega⟩
    | some k =>
      rw [hkm, hdead] at h
      cases h
      have h1 := findFrom_some hkm
      have h2 := findFrom_bound (by decide) hkm
      have h3 := findFrom_some hdead
      have h4 := findFrom_bound (by decide) hdead
      rw [kmHeader_length] at h1 h2
      rw [deadHeader_length] at h3 h4
      rcases Nat.le_total j0 k with hle | hle
      · rw [min_eq_left hle]
        exact ⟨h1.1, Or.inl h1.2, by omega⟩
      · rw [min_eq_right hle]
        exact ⟨h3.1, Or.inr h3.2, h4⟩

lemma nextHeader_min {data : List Byte} {i j : Nat} (h : nextHeader data i = some j) :
    ∀ m, i < m → m < j → ¬ headerAt data m := by
  intro m him hmj hhd
  unfold nextHeader at h
  cases hkm : findFrom data kmHeader (i + 1) with
  | none =>
    cases hdead : findFrom data deadHeader (i + 1) with
    | none => rw [hkm, hdead] at h; cases h
    | some k =>
      rw [hkm, hdead] at h
      cases h
      rcases hhd with hx | hx
      · exact findFrom_none hkm m (by omega) (by rw [kmHeader_length]; exact hx)
      · exact findFrom_min hdead m (by omega) hmj (by rw [deadHeader_length]; exact hx)
  | some j0 =>
    cases hdead : findFrom data deadHeader (i + 1) with
    | none =>
      rw [hkm, hdead] at h
      cases h
      rcases hhd with hx | hx
      · exact findFrom_min hkm m (by omega) hmj (by rw [kmHeader_length]; exact hx)
      · exact findFrom_none hdead m (by omega) (by rw [deadHeader_length]; exact hx)
    | some k =>
      rw [hkm, hdead] at h
      cases h
      rcases hhd with hx | hx
      · exact findFrom_min hkm m (by omega) (by omega)
          (by rw [kmHeader_length]; exact hx)
      · exact findFrom_min hdead m (by omega) (by omega)
          (by rw [deadHeader_length]; exact hx)

lemma nextHeader_none {data : List Byte} {i : Nat} (h : nextHeader data i = none) :
    ∀ m, i < m → ¬ headerAt data m := by
  intro m him hhd
  unfold nextHeader at h
  cases hkm : findFrom data kmHeader (i + 1) with
  | none =>
    cases hdead : findFrom data deadHeader (i + 1) with
    | none =>
      rcases hhd with hx | hx
      · exact findFrom_none hkm m (by omega) (by rw [kmHeader_length]; exact hx)
      · exact findFrom_none hdead m (by omega) (by rw [deadHeader_length]; exact hx)
    | some k => rw [hkm, hdead] at h; cases h
  | some j0 =>
    cases hdead : findFrom data deadHeader (i + 1) with
    | none => rw [hkm, hdead] at h; cases h
    | some k => rw [hkm, hdead] at h; cases h

lemma parseStep_emit_lt {data : List Byte} {i : Nat} {fr : Frame} {n : Nat}
    (h : parseStep data i = StepRes.emit fr n) : i < n ∧ n ≤ data.length := by
  unfold parseStep at h
  split at h
  case isFalse => cases h
  case isTrue hilen =>
    split at h
    case isTrue hkm =>
      cases hcr : findFrom data [CRbyte] i with
      | none => rw [hcr] at h; cases h
      | some e =>
        rw [hcr] at h
        cases h
        have h1 := findFrom_some hcr
        have h2 := findFrom_bound (by decide) hcr
        simp only [List.length_cons, List.length_nil] at h2
        exact ⟨by omega, by omega⟩
    case isFalse hkm =>
      split at h
      case isTrue hdead =>
        split at h
        case isTrue h4 =>
          split at h
          case isTrue hfull =>
            cases h
            exact ⟨by omega, hfull⟩
          case isFalse hfull => cases h
        case isFalse h4 => cases h
      case isFalse hdead =>
        cases hnx : nextHeader data i with
        | none => rw [hnx] at h; cases h
        | some j => rw [hnx] at h; cases h

lemma parseStep_skip_lt {data : List Byte} {i n : Nat}
    (h : parseStep data i = StepRes.skip n) : i < n ∧ n < data.length := by
  unfold parseStep at h
  split at h
  case isFalse => cases h
  case isTrue hilen =>
    split at h
    case isTrue hkm =>
      cases hcr : findFrom data [CRbyte] i with
      | none => rw [hcr] at h; cases h
      | some e => rw [hcr] at h; cases h
    case isFalse hkm =>
      split at h
      case isTrue hdead =>
        split at h
        case isTrue h4 =>
          split at h
          case isTrue hfull => cases h
          case isFalse hfull => cases h
        case isFalse h4 => cases h
      case isFalse hdead =>
        cases hnx : nextHeader data i with
        | none => rw [hnx] at h; cases h
        | some j =>
          rw [hnx] at h
          cases h
          have h1 := nextHeader_some hnx
          exact ⟨by omega, by omega⟩

/-! ### Fuel irrelevance and totality of the parser loop -/

lemma parseAux_fuel (data : List Byte) :
    ∀ f1 f2 i, data.length - i < f1 → data.length - i < f2 →
      parseAux data f1 i = parseAux data f2 i := by
  intro f1
  induction f1 with
  | zero => intro f2 i h1 h2; omega
  | succ a ih =>
    intro f2 i h1 h2
    match f2 with
    | 0 => omega
    | b + 1 =>
      simp only [parseAux]
      cases hs : parseStep data i with
      | exit => rfl
      | emit fr next =>
        have hlt := parseStep_emit_lt hs
        dsimp only
        rw [ih b next (by omega) (by omega)]
      | skip next =>
        have hlt := parseStep_skip_lt hs
        exact ih b next (by omega) (by omega)

lemma parseAux_total (data : List Byte) :
    ∀ f i, data.length - i < f → (parseAux data f i).isSome := by
  intro f
  induction f with
  | zero => intro i h; omega
  | succ a ih =>
    intro i h
    simp only [parseAux]
    cases hs : parseStep data i with
    | exit => rfl
    | emit fr next =>
      have hlt := parseStep_emit_lt hs
      have hrec := ih next (by omega)
      cases hx : parseAux data a next with
      | none => rw [hx] at hrec; cases hrec
      | some r =>
        cases r
        dsimp only
        rw [hx]
        rfl
    | skip next =>
      have hlt := parseStep_skip_lt hs
      exact ih next (by omega)

lemma parseAux_parseFrom (data : List Byte) (f i : Nat) (h : data.length - i < f) :
    parseAux data f i = some (parseFrom data i) := by
  have h2 : data.length - i < data.length + 1 := by omega
  rw [parseAux_fuel data f (data.length + 1) i h h2]
  unfold parseFrom
  cases hx : parseAux data (data.length + 1) i with
  | none =>
    have := parseAux_total data (data.length + 1) i h2
    rw [hx] at this
    cases this
  | some r => rfl

/-! ### One-step unfolding of `parseFrom` -/

lemma parseFrom_exit {data : List Byte} {i : Nat} (h : parseStep data i = StepRes.exit) :
    parseFrom data i = ([], i) := by
  unfold parseFrom
  simp only [parseAux, h, Option.getD_some]

lemma parseFrom_emit {data : List Byte} {i : Nat} {fr : Frame} {n : Nat}
    (h : parseStep data i = StepRes.emit fr n) :
    parseFrom data i = (fr :: (parseFrom data n).1, (parseFrom data n).2) := by
  have hlt := parseStep_emit_lt h
  have hrec : parseAux data data.length n = some (parseFrom data n) :=
    parseAux_parseFrom data data.length n (by omega)
  conv_lhs => unfold parseFrom
  simp only [parseAux, h, hrec, Option.getD_some]

lemma parseFrom_skip {data : List Byte} {i n : Nat}
    (h : parseStep data i = StepRes.skip n) :
    parseFrom data i = parseFrom data n := by
  have hlt := parseStep_skip_lt h
  have hrec : parseAux data data.length n = some (parseFrom data n) :=
    parseAux_parseFrom data data.length n (by omega)
  conv_lhs => unfold parseFrom
  simp only [parseAux, h, hrec, Option.getD_some]

lemma take_eq_imp_le_length {l s : List Byte} {k : Nat} (h : l.take k = s)
    (hs : s.length = k) : k ≤ l.length := by
  have h1 := congrArg List.length h
  rw [List.length_take, hs] at h1
  have h2 : k ⊓ l.length ≤ l.length := Nat.min_le_right _ _
  rw [h1] at h2
  exact h2

lemma take3_ne_km_of_take2_dead {l : List Byte} (h : l.take 2 = deadHeader) :
    l.take 3 ≠ kmHeader := by
  intro hk
  have h2 : (l.take 3).take 2 = l.take 2 := by
    rw [List.take_take]
    norm_num
  rw [hk, h] at h2
  simp [deadHeader, kmHeader] at h2

/-! ### The write path: encoder, commands, baud rate
(`write_to_serial`, `write_to_serial_with_size`, `send_command`,
`set_baud_rate`, lines 279-373 of `serial_handler.py`). -/

/-- The mutable `SerialHandler` fields relevant to the write path.
`conn_present` models `self.serial_connection is not None`;
`conn_is_open` models `self.serial_connection.is_open`. -/
structure SH where
  is_connected : Bool
  serial_open : Bool
  conn_present : Bool
  conn_is_open : Bool
  conn_baudrate : Nat
  com_speed : Nat
  buffer : List Byte
deriving DecidableEq, Repr

/-- A `logger.terminal_print` call on the write path, one constructor per
call site. -/
inductive LogEvent where
  | attemptedWriteNotOpen : LogEvent
  | txAutoSize (payload : List Byte) : LogEvent
  | txExplicitSize (payload : List Byte) : LogEvent
  | invalidBaudRate : LogEvent
  | localBaudChanged (rate : Nat) : LogEvent
deriving DecidableEq, Repr

/-- `lsb = size & 0xFF` and `msb = (size >> 8) & 0xFF`, in transmit
order `[lsb, msb]` (the little-endian 16-bit size field). -/
def u16le (n : Nat) : List Byte := [n % 0x100, n / 0x100 % 0x100]

/-- Command opcodes (class constants of `SerialHandler`). -/
def GET_BAUD_RATE : Byte := 0xA4

def SET_BAUD_RATE : Byte := 0xA5

def GET_DEV_LOG : Byte := 0xA6

def SET_DEV_LOG : Byte := 0xA7

/-- `write_to_serial(data)` (lines 279-307): if no open connection, log
and return; otherwise frame `data` as `0xDE 0xAD ++ u16le(len(data)) ++
data`, log it and write it.  Returns (state, log events, writes). -/
def write_to_serial (st : SH) (data : List Byte) :
    SH × List LogEvent × List (List Byte) :=
  if !st.conn_present || !st.conn_is_open then
    (st, [LogEvent.attemptedWriteNotOpen], [])
  else
    (st, [LogEvent.txAutoSize (deadHeader ++ u16le data.length ++ data)],
     [deadHeader ++ u16le data.length ++ data])

/-- `write_to_serial_with_size(size, data)` (lines 309-335): like
`write_to_serial` but with the declared `size` given explicitly. -/
def write_to_serial_with_size (st : SH) (size : Nat) (data : List Byte) :
    SH × List LogEvent × List (List Byte) :=
  if !st.conn_present || !st.conn_is_open then
    (st, [LogEvent.attemptedWriteNotOpen], [])
  else
    (st, [LogEvent.txExplicitSize (deadHeader ++ u16le size ++ data)],
     [deadHeader ++ u16le size ++ data])

/-- `send_command(command, payload)` (lines 337-343): declared size is
`len(payload) + 1` (one byte for the opcode), data is `[command] ++
payload`. -/
def send_command (st : SH) (command : Byte) (payload : List Byte) :
    SH × List LogEvent × List (List Byte) :=
  write_to_serial_with_size st (payload.length + 1) (command :: payload)

/-- `set_baud_rate(baud_rate)` (lines 352-373): rates other than 115200
and 4000000 are rejected with a validation log and nothing is sent;
otherwise the fixed 4-byte device payload is sent via `send_command`, and
if the connection is open the local baud rate fields are updated. -/
def set_baud_rate (st : SH) (baud_rate : Nat) :
    SH × List LogEvent × List (List Byte) :=
  if baud_rate ≠ 115200 ∧ baud_rate ≠ 4000000 then
    (st, [LogEvent.invalidBaudRate], [])
  else
    let payload := if baud_rate = 4000000 then [0x00, 0x09, 0x3D, 0x00]
                   else [0x00, 0x00, 0xC2, 0x01]
    let r := send_command st SET_BAUD_RATE payload
    if r.1.conn_present && r.1.conn_is_open then
      ({ r.1 with conn_baudrate := baud_rate, com_speed := baud_rate },
       r.2.1 ++ [LogEvent.localBaudChanged baud_rate], r.2.2)
    else r

/-! ### Device discovery (`KNOWN_DEVICES`, `monitor_ports`, lines 8-11 and
77-87). -/

/-- The device registry, in source order. -/
def KNOWN_DEVICES : List (String × String × String) :=
  [("1A86", "55D3", "Normal"), ("303A", "0009", "Flash")]

/-- The `for device in KNOWN_DEVICES` loop of one `monitor_ports` scan
tick: connect (`auto_connect(com_port, mode)`) to the first device whose
port is found, then `break`.  `ports vid pid` models
`find_com_port(vid, pid)`. -/
def scan_devices (ports : String → String → Option String) :
    List (String × String × String) → Option (String × String)
  | [] => none
  | (vid, pid, mode) :: rest =>
    match ports vid pid with
    | some com_port => some (com_port, mode)
    | none => scan_devices ports rest

/-- One `monitor_ports` tick: the registry is scanned only while not
connected and not flashing; the result is the `(com_port, mode)` passed to
`auto_connect`, or `none` if no connection is attempted. -/
def monitor_tick (is_connected is_flashing : Bool)
    (ports : String → String → Option String) : Option (String × String) :=
  if !is_connected && !is_flashing then scan_devices ports KNOWN_DEVICES
  else none

/-! ### The `auto_connect` retry loop (lines 89-145). -/

/-- The `while attempt < retry_attempts and not self.is_connected and
self.monitoring_active` loop of `auto_connect`, with `rem =
retry_attempts - attempt` as fuel.  `openR k` models whether the
`serial.Serial(...)` open on attempt `k` succeeds (an exception is caught
and logged otherwise); `monA k` models the `monitoring_active` flag as
observed by the guard before attempt `k`.  Returns
`(is_connected, attempt)` at loop exit. -/
def auto_connect_aux (openR monA : Nat → Bool) : Nat → Nat → Bool × Nat
  | 0, attempt => (false, attempt)
  | rem + 1, attempt =>
    if monA attempt then
      if openR attempt then (true, attempt + 1)
      else auto_connect_aux openR monA rem (attempt + 1)
    else (false, attempt)

/-- `auto_connect` with `retry_attempts` attempts, starting disconnected:
returns `(is_connected, attempts used, exhaustion message logged)`; the
final component models the `"Unable to connect ..."` log, emitted exactly
when the loop ends without connecting (lines 144-145). -/
def auto_connect (openR monA : Nat → Bool) (retry_attempts : Nat) :
    Bool × Nat × Bool :=
  let r := auto_connect_aux openR monA retry_attempts 0
  (r.1, r.2, !r.1)

lemma auto_connect_aux_le (openR monA : Nat → Bool) :
    ∀ rem attempt, (auto_connect_aux openR monA rem attempt).2 ≤ attempt + rem := by
  intro rem
  induction rem with
  | zero => intro attempt; simp [auto_connect_aux]
  | succ a ih =>
    intro attempt
    unfold auto_connect_aux
    by_cases hm : monA attempt
    · rw [if_pos hm]
      by_cases ho : openR attempt
      · rw [if_pos ho]
        dsimp only
        omega
      · rw [if_neg ho]
        have := ih (attempt + 1)
        omega
    · rw [if_neg hm]
      dsimp only
      omega

lemma auto_connect_aux_all_fail (openR monA : Nat → Bool) :
    ∀ rem attempt, (∀ j, attempt ≤ j → j < attempt + rem → openR j = false) →
      (auto_connect_aux openR monA rem attempt).1 = false := by
  intro rem
  induction rem with
  | zero => intro attempt hfail; simp [auto_connect_aux]
  | succ a ih =>
    intro attempt hfail
    unfold auto_connect_aux
    by_cases hm : monA attempt
    · rw [if_pos hm]
      have ho : openR attempt = false := hfail attempt (le_refl _) (by omega)
      rw [ho]
      simp
      exact ih (attempt + 1) (fun j h1 h2 => hfail j (by omega) (by omega))
    · rw [if_neg hm]

lemma auto_connect_aux_stopped (openR monA : Nat → Bool) {k : Nat}
    (hstop : monA k = false) :
    ∀ rem attempt, attempt ≤ k → (∀ j, attempt ≤ j → j < k → openR j = false) →
      (auto_connect_aux openR monA rem attempt).1 = false := by
  intro rem
  induction rem with
  | zero => intro attempt hak hfail; simp [auto_connect_aux]
  | succ a ih =>
    intro attempt hak hfail
    unfold auto_connect_aux
    by_cases hm : monA attempt
    · rw [if_pos hm]
      have hne : attempt ≠ k := by
        intro hc
        rw [hc] at hm
        rw [hstop] at hm
        cases hm
      have ho : openR attempt = false := hfail attempt (le_refl _) (by omega)
      rw [ho]
      simp
      exact ih (attempt + 1) (by omega) (fun j h1 h2 => hfail j (by omega) h2)
    · rw [if_neg hm]

/-! ## Claim theorems -/

/-- C1: the claim says chunking must not affect decoded output and that
unconsumed trailing bytes are retained in the buffer.  The code resets
`self.buffer` to empty after every parse pass (line 236), contradicting
the parser's own "wait for more data" comments: feeding `"km.ab\r"` as
`"km.a"` then `"b\r"` emits no frame, while feeding it in one call emits
the frame; after the first append the buffer is empty, not `"km.a"`. -/
theorem c1_chunking_dependence :
    (parse_uart_frames [0x6B, 0x6D, 0x2E, 0x61, 0x62, 0x0D]).1 =
      [Frame.text [0x6B, 0x6D, 0x2E, 0x61, 0x62, 0x0D]] ∧
    (feed_chunks ⟨[]⟩ [[0x6B, 0x6D, 0x2E, 0x61], [0x62, 0x0D]]).1 = [] ∧
    (feed_chunks ⟨[]⟩ [[0x6B, 0x6D, 0x2E, 0x61], [0x62, 0x0D]]).1 ≠
      (parse_uart_frames ([0x6B, 0x6D, 0x2E, 0x61] ++ [0x62, 0x0D])).1 ∧
    (handle_incoming_data ⟨[]⟩ [0x6B, 0x6D, 0x2E, 0x61]).2.buffer = [] := by
  decide

/-- C2 counterexample: the claim says binary payloads are decoded as UTF-8
with invalid byte sequences replaced; the code decodes with
`errors='ignore'` (line 195).  For the frame `0xDE 0xAD 0x01 0x00 0xFF`
the emitted text is empty, while replace-decoding the payload `0xFF`
yields U+FFFD. -/
theorem c2_replace_vs_ignore_counterexample :
    (parse_uart_frames [0xDE, 0xAD, 0x01, 0x00, 0xFF]).1 = [Frame.binary []] ∧
    specUtf8DecodeReplace [0xFF] = [0xFFFD] ∧
    Frame.binary (specUtf8DecodeReplace [0xFF]) ≠ Frame.binary [] := by
  decide

/-- C2 (amended): at a `0xDE 0xAD` header with little-endian 16-bit length
`L` and at least `L` further bytes buffered, the parser emits one
BinaryFrame whose text is the `L` payload bytes decoded as UTF-8 with
invalid byte sequences ignored/dropped (the decode never raises), and
advances past the `4+L` frame bytes; `0xDE 0xAD 0x03 0x00 'a' 'b' 'c'`
decodes to payload `"abc"`.  With fewer than 4 header bytes or fewer than
`4+L` total bytes, no frame is emitted and scanning stops at the frame
start, keeping the incomplete frame as the unconsumed remainder of the
pass. -/
theorem c2_binary_frame_parse (data : List Byte) (i L : Nat)
    (hdead : (data.drop i).take 2 = deadHeader)
    (hL : L = data.getD (i + 2) 0 + 0x100 * data.getD (i + 3) 0) :
    (i + 4 + L ≤ data.length →
      parseFrom data i =
        (Frame.binary (utf8DecodeIgnore ((data.drop (i + 4)).take L)) ::
          (parseFrom data (i + 4 + L)).1,
         (parseFrom data (i + 4 + L)).2)) ∧
    (¬ i + 4 + L ≤ data.length → parseFrom data i = ([], i)) ∧
    (parse_uart_frames [0xDE, 0xAD, 0x03, 0x00, 0x61, 0x62, 0x63]).1 =
      [Frame.binary [0x61, 0x62, 0x63]] := by
  have hlen2 : 2 ≤ (data.drop i).length := take_eq_imp_le_length hdead rfl
  rw [List.length_drop] at hlen2
  have hkm := take3_ne_km_of_take2_dead hdead
  refine ⟨?_, ?_, by decide⟩
  · intro h46
    have hstep : parseStep data i =
        StepRes.emit (Frame.binary (utf8DecodeIgnore ((data.drop (i + 4)).take L)))
          (i + 4 + L) := by
      unfold parseStep
      rw [if_pos (show i < data.length by omega), if_neg hkm, if_pos hdead,
        if_pos (show i + 4 ≤ data.length by omega), ← hL, if_pos h46]
    rw [parseFrom_emit hstep]
  · intro h46
    by_cases h4 : i + 4 ≤ data.length
    · have hstep : parseStep data i = StepRes.exit := by
        unfold parseStep
        rw [if_pos (show i < data.length by omega), if_neg hkm, if_pos hdead,
          if_pos h4, ← hL, if_neg h46]
      exact parseFrom_exit hstep
    · have hstep : parseStep data i = StepRes.exit := by
        unfold parseStep
        rw [if_pos (show i < data.length by omega), if_neg hkm, if_pos hdead,
          if_neg h4]
      exact parseFrom_exit hstep

/-- C2 witness: the amended theorem applied to the concrete frame
`0xDE 0xAD 0x01 0x00 0x42`. -/
theorem c2_binary_frame_parse_witness :
    (([0xDE, 0xAD, 0x01, 0x00, 0x42] : List Byte).drop 0).take 2 = deadHeader ∧
    parseFrom [0xDE, 0xAD, 0x01, 0x00, 0x42] 0 =
      (Frame.binary (utf8DecodeIgnore
          ((([0xDE, 0xAD, 0x01, 0x00, 0x42] : List Byte).drop 4).take 1)) ::
        (parseFrom [0xDE, 0xAD, 0x01, 0x00, 0x42] 5).1,
       (parseFrom [0xDE, 0xAD, 0x01, 0x00, 0x42] 5).2) :=
  ⟨by decide,
   (c2_binary_frame_parse [0xDE, 0xAD, 0x01, 0x00, 0x42] 0 1 (by decide)
      (by decide)).1 (by decide)⟩

/-- C3: `send_command(opcode, payload)` writes exactly
`0xDE 0xAD ++ u16le(len(payload)+1) ++ [opcode] ++ payload`; in
particular `send_command(0xA7, [0x04])` writes
`0xDE 0xAD 0x02 0x00 0xA7 0x04`. -/
theorem c3_encode_command (st : SH) (c : Byte) (p : List Byte)
    (hp : st.conn_present = true) (ho : st.conn_is_open = true) :
    (send_command st c p).2.2 =
      [[0xDE, 0xAD] ++ u16le (p.length + 1) ++ c :: p] ∧
    (send_command st 0xA7 [0x04]).2.2 = [[0xDE, 0xAD, 0x02, 0x00, 0xA7, 0x04]] := by
  constructor
  · simp [send_command, write_to_serial_with_size, hp, ho, deadHeader]
  · simp [send_command, write_to_serial_with_size, hp, ho, deadHeader, u16le]

/-- C3 witness: the encoder theorem applied to an open connection and the
claim's concrete opcode/payload. -/
theorem c3_encode_command_witness :
    (SH.mk true true true true 115200 115200 []).conn_present = true ∧
    (send_command (SH.mk true true true true 115200 115200 []) 0xA7 [0x04]).2.2 =
      [[0xDE, 0xAD, 0x02, 0x00, 0xA7, 0x04]] :=
  ⟨rfl, (c3_encode_command (SH.mk true true true true 115200 115200 [])
      0xA7 [0x04] rfl rfl).2⟩

/-- C4: the claim's positive part holds — `"km.move(1,2)\r"` is emitted
verbatim and the index advances past the `\r` — but its retention part
fails on the code: with no carriage return after `"km."` the parser emits
nothing and stops at the frame start, yet `handle_incoming_data` resets
the buffer to empty (line 236), so the suffix is not retained and a later
`"y\r"` append completes no frame. -/
theorem c4_text_frame_retention_bug :
    parse_uart_frames [0x6B, 0x6D, 0x2E, 0x6D, 0x6F, 0x76, 0x65, 0x28,
        0x31, 0x2C, 0x32, 0x29, 0x0D] =
      ([Frame.text [0x6B, 0x6D, 0x2E, 0x6D, 0x6F, 0x76, 0x65, 0x28,
        0x31, 0x2C, 0x32, 0x29, 0x0D]], 13) ∧
    parse_uart_frames [0x6B, 0x6D, 0x2E, 0x78] = ([], 0) ∧
    (handle_incoming_data ⟨[]⟩ [0x6B, 0x6D, 0x2E, 0x78]).2.buffer = [] ∧
    (feed_chunks ⟨[]⟩ [[0x6B, 0x6D, 0x2E, 0x78], [0x79, 0x0D]]).1 = [] := by
  decide

/-- C5: at a position holding neither header, the parser jumps to the
nearest occurrence of either header strictly after the current index
(emitting nothing for the skipped bytes); if neither occurs again,
scanning stops, and the handler leaves an empty buffer; garbage
`"\x00\x01"` before a valid `"km.a\r"` frame yields exactly that one
frame. -/
theorem c5_garbage_header_skip (data : List Byte) (i : Nat)
    (hlen : i < data.length)
    (hkm : (data.drop i).take 3 ≠ kmHeader)
    (hdead : (data.drop i).take 2 ≠ deadHeader) :
    (∀ j, nextHeader data i = some j →
      i < j ∧ headerAt data j ∧ (∀ m, i < m → m < j → ¬ headerAt data m) ∧
      parseFrom data i = parseFrom data j) ∧
    (nextHeader data i = none →
      parseFrom data i = ([], i) ∧ (∀ m, i < m → ¬ headerAt data m)) ∧
    (∀ st : RxState, ∀ chunk : List Byte,
      (handle_incoming_data st chunk).2.buffer = []) ∧
    (parse_uart_frames [0x00, 0x01, 0x6B, 0x6D, 0x2E, 0x61, 0x0D]).1 =
      [Frame.text [0x6B, 0x6D, 0x2E, 0x61, 0x0D]] := by
  refine ⟨?_, ?_, fun st chunk => rfl, by decide⟩
  · intro j hj
    have h1 := nextHeader_some hj
    have hstep : parseStep data i = StepRes.skip j := by
      unfold parseStep
      rw [if_pos hlen, if_neg hkm, if_neg hdead, hj]
    exact ⟨by omega, h1.2.1, nextHeader_min hj, parseFrom_skip hstep⟩
  · intro hj
    have hstep : parseStep data i = StepRes.exit := by
      unfold parseStep
      rw [if_pos hlen, if_neg hkm, if_neg hdead, hj]
    exact ⟨parseFrom_exit hstep, nextHeader_none hj⟩

/-- C5 witness: the skip theorem applied to `0x00` followed by
`"km.a\r"`. -/
theorem c5_garbage_header_skip_witness :
    (0 : Nat) < ([0x00, 0x6B, 0x6D, 0x2E, 0x61, 0x0D] : List Byte).length ∧
    parseFrom [0x00, 0x6B, 0x6D, 0x2E, 0x61, 0x0D] 0 =
      parseFrom [0x00, 0x6B, 0x6D, 0x2E, 0x61, 0x0D] 1 :=
  ⟨by decide,
   ((c5_garbage_header_skip [0x00, 0x6B, 0x6D, 0x2E, 0x61, 0x0D] 0 (by decide)
      (by decide) (by decide)).1 1 (by decide)).2.2.2⟩

/-- C6: `set_baud_rate` sends opcode 0xA5 with the fixed payload
`00 09 3D 00` for 4000000 and `00 00 C2 01` for 115200 (as the framed
write `DE AD 05 00 A5 ...`); any other rate is rejected with the
validation log, nothing is written, and the state is unchanged. -/
theorem c6_set_baud_rate_validation (st : SH) (rate : Nat)
    (hp : st.conn_present = true) (ho : st.conn_is_open = true) :
    (set_baud_rate st 4000000).2.2 =
      [[0xDE, 0xAD, 0x05, 0x00, 0xA5, 0x00, 0x09, 0x3D, 0x00]] ∧
    (set_baud_rate st 115200).2.2 =
      [[0xDE, 0xAD, 0x05, 0x00, 0xA5, 0x00, 0x00, 0xC2, 0x01]] ∧
    (rate ≠ 115200 → rate ≠ 4000000 →
      set_baud_rate st rate = (st, [LogEvent.invalidBaudRate], [])) := by
  refine ⟨?_, ?_, ?_⟩
  · simp [set_baud_rate, send_command, write_to_serial_with_size, SET_BAUD_RATE,
      hp, ho, deadHeader, u16le]
  · simp [set_baud_rate, send_command, write_to_serial_with_size, SET_BAUD_RATE,
      hp, ho, deadHeader, u16le]
  · intro h1 h2
    simp [set_baud_rate, h1, h2]

/-- C6 witness: `set_baud_rate(9600)` on an open connection is rejected
without writing. -/
theorem c6_set_baud_rate_validation_witness :
    (SH.mk true true true true 115200 115200 []).conn_present = true ∧
    set_baud_rate (SH.mk true true true true 115200 115200 []) 9600 =
      (SH.mk true true true true 115200 115200 [],
       [LogEvent.invalidBaudRate], []) :=
  ⟨rfl, (c6_set_baud_rate_validation (SH.mk true true true true 115200 115200 [])
      9600 rfl rfl).2.2 (by decide) (by decide)⟩

/-- C7: a scan tick runs only while disconnected and not flashing, and
connects to the first registry entry (in table order
`1A86:55D3`/Normal before `303A:0009`/Flash) whose port is found; when
ports for both entries are present, the Normal entry wins. -/
theorem c7_registry_priority (ports : String → String → Option String)
    (p1 p2 : String) :
    (ports "1A86" "55D3" = some p1 →
      monitor_tick false false ports = some (p1, "Normal")) ∧
    (ports "1A86" "55D3" = none → ports "303A" "0009" = some p2 →
      monitor_tick false false ports = some (p2, "Flash")) ∧
    (∀ fl, monitor_tick true fl ports = none) ∧
    (∀ ic, monitor_tick ic true ports = none) := by
  refine ⟨?_, ?_, ?_, ?_⟩
  · intro h1
    simp [monitor_tick, KNOWN_DEVICES, scan_devices, h1]
  · intro h1 h2
    simp [monitor_tick, KNOWN_DEVICES, scan_devices, h1, h2]
  · intro fl
    simp [monitor_tick]
  · intro ic
    simp [monitor_tick]

/-- C7 witness: with both ports present (a port finder returning a port
for every registry entry), the Normal entry is connected. -/
theorem c7_registry_priority_witness :
    (fun (_ : String) (_ : String) => some "COM3") "1A86" "55D3" = some "COM3" ∧
    monitor_tick false false (fun _ _ => some "COM3") = some ("COM3", "Normal") :=
  ⟨rfl, (c7_registry_priority (fun _ _ => some "COM3") "COM3" "COM3").1 rfl⟩

/-- C8: the connect retry loop makes at most 5 attempts; if every attempt
fails it ends disconnected and logs the exhaustion message; if monitoring
is stopped at some iteration (and no earlier attempt succeeded) the loop
terminates with `is_connected = false`. -/
theorem c8_retry_bounded (openR monA : Nat → Bool) (k : Nat) :
    (auto_connect openR monA 5).2.1 ≤ 5 ∧
    ((∀ j, j < 5 → openR j = false) →
      (auto_connect openR monA 5).1 = false ∧
      (auto_connect openR monA 5).2.2 = true) ∧
    (monA k = false → (∀ j, j < k → openR j = false) →
      (auto_connect openR monA 5).1 = false ∧
      (auto_connect openR monA 5).2.2 = true) := by
  refine ⟨?_, ?_, ?_⟩
  · have h := auto_connect_aux_le openR monA 5 0
    simpa [auto_connect] using h
  · intro hfail
    have h := auto_connect_aux_all_fail openR monA 5 0
      (fun j h1 h2 => hfail j (by omega))
    exact ⟨by simp [auto_connect, h], by simp [auto_connect, h]⟩
  · intro hstop hfail
    have h := auto_connect_aux_stopped openR monA hstop 5 0 (by omega)
      (fun j h1 h2 => hfail j h2)
    exact ⟨by simp [auto_connect, h], by simp [auto_connect, h]⟩

/-- C8 witness: the retry theorem applied to a port whose open always
fails while monitoring stays active. -/
theorem c8_retry_bounded_witness :
    (∀ j : Nat, j < 5 → (fun _ : Nat => false) j = false) ∧
    (auto_connect (fun _ => false) (fun _ => true) 5).1 = false ∧
    (auto_connect (fun _ => false) (fun _ => true) 5).2.2 = true :=
  ⟨fun _ _ => rfl,
   ((c8_retry_bounded (fun _ => false) (fun _ => true) 0).2.1 (fun _ _ => rfl)).1,
   ((c8_retry_bounded (fun _ => false) (fun _ => true) 0).2.1 (fun _ _ => rfl)).2⟩

/-- C9: with no open serial connection, `write_to_serial`,
`write_to_serial_with_size` and `send_command` log the not-open message,
write nothing, and leave the handler state unchanged. -/
theorem c9_write_closed_noop (st : SH) (data p : List Byte) (c : Byte)
    (size : Nat)
    (h : st.conn_present = false ∨ st.conn_is_open = false) :
    write_to_serial st data = (st, [LogEvent.attemptedWriteNotOpen], []) ∧
    write_to_serial_with_size st size data =
      (st, [LogEvent.attemptedWriteNotOpen], []) ∧
    send_command st c p = (st, [LogEvent.attemptedWriteNotOpen], []) := by
  have hg : (!st.conn_present || !st.conn_is_open) = true := by
    rcases h with h | h <;> simp [h]
  refine ⟨?_, ?_, ?_⟩ <;>
    simp [write_to_serial, write_to_serial_with_size, send_command, hg]

/-- C9 witness: the no-op theorem applied to a fully disconnected
handler. -/
theorem c9_write_closed_noop_witness :
    ((SH.mk false false false false 115200 115200 []).conn_present = false ∨
     (SH.mk false false false false 115200 115200 []).conn_is_open = false) ∧
    write_to_serial (SH.mk false false false false 115200 115200 []) [0x41] =
      (SH.mk false false false false 115200 115200 [],
       [LogEvent.attemptedWriteNotOpen], []) :=
  ⟨Or.inl rfl,
   (c9_write_closed_noop (SH.mk false false false false 115200 115200 [])
      [0x41] [] 0xA7 0 (Or.inl rfl)).1⟩

/-- C10: the parser loop terminates on every finite buffer: every `emit`
or `skip` step strictly increases the scan index, and with fuel exceeding
`data.length - i` the loop completes (returns `some`). -/
theorem c10_parser_terminates (data : List Byte) (i fuel : Nat) :
    (∀ fr n, parseStep data i = StepRes.emit fr n → i < n) ∧
    (∀ n, parseStep data i = StepRes.skip n → i < n) ∧
    (data.length - i < fuel → (parseAux data fuel i).isSome) := by
  refine ⟨?_, ?_, ?_⟩
  · intro fr n h
    exact (parseStep_emit_lt h).1
  · intro n h
    exact (parseStep_skip_lt h).1
  · intro h
    exact parseAux_total data fuel i h

/-- C10 witness: the termination theorem applied to a concrete buffer. -/
theorem c10_parser_terminates_witness :
    ([0x6B, 0x6D, 0x2E, 0x61, 0x0D] : List Byte).length - 0 < 6 ∧
    (parseAux [0x6B, 0x6D, 0x2E, 0x61, 0x0D] 6 0).isSome :=
  ⟨by decide,
   (c10_parser_terminates [0x6B, 0x6D, 0x2E, 0x61, 0x0D] 0 6).2.2 (by decide)⟩

end MAKCM
